import Mathlib

/-!
Verification of the data-aggregation core of the Berlin Wastewater Dashboard
(`src/scripts/processData.ts` and the surrounding data model in
`src/scripts/types.ts`).

Shallow embedding conventions:
* JavaScript numbers are modelled as rationals (`ℚ`); the code performs no
  operation whose result depends on binary floating-point rounding for the
  properties verified here, and the explicit `weightSum === 0` guard is the
  only place a division could be undefined.
* JavaScript `Date` instants are modelled as integers (`ℤ`, days since the
  Unix epoch).  Every date flowing through the pipeline is produced by
  `d3.timeParse("%d.%m.%Y")`, i.e. a midnight of a civil day with year
  0–9999, so instant equality is day equality and lexicographic order of the
  `toISOString()` renderings coincides with the numeric order of the day
  numbers.
* Optional / nullable values are `Option`; a JSON runtime value that is
  neither a string nor a number is the constructor `JSVal.other`.
-/

/-- Decides whether the first character list is a prefix of the second
(JavaScript `String.prototype.startsWith` on the underlying characters). -/
def listIsPrefixOf : List Char → List Char → Bool
  | [], _ => true
  | _ :: _, [] => false
  | a :: as, b :: bs => a == b && listIsPrefixOf as bs

/-- Decides whether `needle` occurs contiguously inside `hay`
(JavaScript `String.prototype.includes`). -/
def listIsInfixOf (needle : List Char) : List Char → Bool
  | [] => needle.isEmpty
  | b :: bs => listIsPrefixOf needle (b :: bs) || listIsInfixOf needle bs

/-- JavaScript `s.includes(sub)`. -/
def jsIncludes (s sub : String) : Bool :=
  listIsInfixOf sub.toList s.toList

/-- JavaScript `s.startsWith(pre)`. -/
def jsStartsWith (s pre : String) : Bool :=
  listIsPrefixOf pre.toList s.toList

/-- JavaScript `s.replace(",", ".")`: only the FIRST comma is replaced. -/
def replaceFirstComma : List Char → List Char
  | [] => []
  | ',' :: rest => '.' :: rest
  | c :: rest => c :: replaceFirstComma rest

/-- String-level wrapper for `replaceFirstComma`. -/
def jsReplaceCommaDot (s : String) : String :=
  ⟨replaceFirstComma s.toList⟩

/-- Splits off a run of at most `n` leading decimal digits. -/
def takeDigits : Nat → List Char → List Char × List Char
  | 0, l => ([], l)
  | _ + 1, [] => ([], [])
  | n + 1, c :: cs =>
    if c.isDigit then
      let (ds, rest) := takeDigits n cs
      (c :: ds, rest)
    else ([], c :: cs)

/-- Splits off the (unbounded) run of leading decimal digits. -/
def spanDigits : List Char → List Char × List Char
  | [] => ([], [])
  | c :: cs =>
    if c.isDigit then
      let (ds, rest) := spanDigits cs
      (c :: ds, rest)
    else ([], c :: cs)

/-- Numeric value of a digit run (most significant first). -/
def digitsToNat (l : List Char) : Nat :=
  l.foldl (fun acc c => 10 * acc + (c.toNat - '0'.toNat)) 0

/-- Drops leading JavaScript whitespace. -/
def skipWs : List Char → List Char
  | [] => []
  | c :: cs => if c.isWhitespace then skipWs cs else c :: cs

/-- JavaScript `parseFloat` on the decimal-literal fragment of its grammar:
optional whitespace, optional sign, digits with an optional fractional part
(at least one digit in the mantissa), optional exponent; the longest valid
prefix is parsed and trailing garbage is ignored; `none` models `NaN`.
Non-finite literals (`Infinity`) have no rational counterpart and are not
produced by the measurement feed; they are outside this embedding. -/
def jsParseFloat (s : String) : Option ℚ :=
  let l := skipWs s.toList
  let (sign, l1) : ℚ × List Char :=
    match l with
    | '-' :: r => (-1, r)
    | '+' :: r => (1, r)
    | _ => (1, l)
  let (ip, l2) := spanDigits l1
  let (fp, l3) : List Char × List Char :=
    match l2 with
    | '.' :: r => spanDigits r
    | _ => ([], l2)
  if ip.isEmpty && fp.isEmpty then none
  else
    let mantissa : ℚ := (digitsToNat ip : ℚ) + (digitsToNat fp : ℚ) / (10 ^ fp.length)
    let ex : ℤ :=
      match l3 with
      | 'e' :: r | 'E' :: r =>
        let (esign, r2) : ℤ × List Char :=
          match r with
          | '-' :: t => (-1, t)
          | '+' :: t => (1, t)
          | _ => (1, r)
        let (eds, _) := spanDigits r2
        if eds.isEmpty then 0 else esign * (digitsToNat eds : ℤ)
      | _ => 0
    some (sign * mantissa * (10 : ℚ) ^ ex)

/-- JavaScript `Math.round`: half-integers round towards positive infinity. -/
def jsRound (q : ℚ) : ℤ :=
  ⌊q + 1 / 2⌋

/-- `d3.mean` on a list of plain numbers: the arithmetic mean
(callers only use it on non-empty lists). -/
def d3Mean (l : List ℚ) : ℚ :=
  l.sum / l.length

/-- `d3.min` on a list of plain numbers (`none` models `undefined`). -/
def d3Min : List ℚ → Option ℚ
  | [] => none
  | x :: xs => some (xs.foldl min x)

/-- `d3.max` on a list of plain numbers (`none` models `undefined`). -/
def d3Max : List ℚ → Option ℚ
  | [] => none
  | x :: xs => some (xs.foldl max x)

/-- Days since 1970-01-01 of the civil date `y-m-d` for a normalized month
`1 ≤ m ≤ 12`; the day `d` may lie outside its month and rolls over linearly,
exactly as the `Date` constructor normalizes an out-of-range day count. -/
def daysFromCivil (y m d : ℤ) : ℤ :=
  let y1 := if m ≤ 2 then y - 1 else y
  let era := y1.fdiv 400
  let yoe := y1 - era * 400
  let mp := if m > 2 then m - 3 else m + 9
  let doy := (153 * mp + 2).fdiv 5 + d - 1
  let doe := yoe * 365 + yoe.fdiv 4 - yoe.fdiv 100 + doy
  era * 146097 + doe - 719468

/-- The day number produced by `new Date(y, m - 1, d)`: an out-of-range month
rolls over into the year and an out-of-range day rolls over linearly. -/
def jsMakeDay (y m d : ℤ) : ℤ :=
  let m0 := m - 1
  daysFromCivil (y + m0.fdiv 12) (m0.fmod 12 + 1) d

/-- `d3.timeParse("%d.%m.%Y")`: one-or-two digit day, literal dot,
one-or-two digit month, literal dot, one-to-four digit year, and the whole
string must be consumed; on success the parsed local-midnight instant is the
day number of the (rolled-over) civil date, on failure `null` (`none`). -/
def parseDateDMY (s : String) : Option ℤ :=
  let (dds, r1) := takeDigits 2 s.toList
  if dds.isEmpty then none
  else
    match r1 with
    | '.' :: r2 =>
      let (mds, r3) := takeDigits 2 r2
      if mds.isEmpty then none
      else
        match r3 with
        | '.' :: r4 =>
          let (yds, r5) := takeDigits 4 r4
          if yds.isEmpty || !r5.isEmpty then none
          else some (jsMakeDay (digitsToNat yds) (digitsToNat mds) (digitsToNat dds))
        | _ => none
    | _ => none

/-- A JSON runtime value sitting in a `string | number` typed position;
`other` stands for any value that is neither (the feed is external, so the
code guards against such values at runtime). -/
inductive JSVal where
  | str (s : String)
  | num (q : ℚ)
  | other
  deriving DecidableEq, Repr

/-- `types.ts` `TestParameter`: one replicate measurement. -/
structure TestParameter where
  name : Option String
  result : JSVal
  deriving DecidableEq, Repr

/-- `types.ts` `TestResult`: one test with its parameters. -/
structure TestResult where
  name : Option String
  parameter : Option (List TestParameter)
  deriving DecidableEq, Repr

/-- `types.ts` `RawDataEntry`: one raw sample. -/
structure RawDataEntry where
  measuring_point : String
  extraction_date : String
  results : Option (List TestResult)
  deriving DecidableEq, Repr

/-- `types.ts` `ProcessedEntry`: one aggregated point; the date is the
epoch-day number of the parsed extraction date. -/
structure ProcessedEntry where
  date : ℤ
  value : ℚ
  min : ℚ
  max : ℚ
  deriving DecidableEq, Repr

/-- One step of filling a JavaScript `Set`: append if not already present. -/
def insertNew {α : Type} [DecidableEq α] (acc : List α) (x : α) : List α :=
  if x ∈ acc then acc else acc ++ [x]

/-- Spreading a JS `Set` built from a list: duplicates removed, first-seen
order kept. -/
def jsSetOf {α : Type} [DecidableEq α] (l : List α) : List α :=
  l.foldl insertNew []

/-- The runtime shape of the dataset argument: either an actual array of raw
entries or any other runtime value (the feed is parsed upstream, so callers
may hand over a malformed document). -/
inductive RawInput where
  | array (entries : List RawDataEntry)
  | notAnArray
  deriving DecidableEq

/-- `getStations` (`src/scripts/processData.ts`, the revision carrying the
defensive `Array.isArray` guard): the guard logs a warning and returns `[]`
on a non-array argument; otherwise
`[...new Set(rawData.map(d => d.measuring_point))]`, the distinct station
names in first-seen order.  (The weighted revision of the file drops the
guard; there the TypeScript signature already restricts the argument to an
array, so only the guarded revision gives the non-array case a meaning.) -/
def getStations : RawInput → List String
  | .notAnArray => []
  | .array rawData => jsSetOf (rawData.map (·.measuring_point))

/-- The body of the `r.parameter?.forEach` loop of `filterDataByStation` for
one `TestParameter`: parameters whose name is a string starting with
"copy_number_" and whose result is a string or a number contribute
`parseFloat(p.result.toString().replace(",", "."))` when it is not `NaN`;
`none` covers every early-`return` and `isNaN` path.  For a number the
print-and-reparse round trip is the identity (JavaScript prints the shortest
round-tripping decimal, which contains no comma). -/
def paramValue (p : TestParameter) : Option ℚ :=
  match p.name with
  | none => none
  | some n =>
    if jsStartsWith n "copy_number_" then
      match p.result with
      | .str s => jsParseFloat (jsReplaceCommaDot s)
      | .num q => some q
      | .other => none
    else none

/-- `resultValues` collected for one test result. -/
def resultValues (r : TestResult) : List ℚ :=
  (r.parameter.getD []).filterMap paramValue

/-- The test-level mean pushed for one test result: defined exactly when at
least one parameter value parsed (`d3.mean` of a non-empty list of numbers is
never `undefined`). -/
def testMeanOf (r : TestResult) : Option ℚ :=
  match resultValues r with
  | [] => none
  | v :: vs => some (d3Mean (v :: vs))

/-- The `relevantResults` filter of `filterDataByStation`: the name is a
string containing "SARS-CoV-2" but not "E-gene", and `parameter` is an
array. -/
def isRelevantResult (r : TestResult) : Bool :=
  match r.name with
  | some n => jsIncludes n "SARS-CoV-2" && !jsIncludes n "E-gene" && r.parameter.isSome
  | none => false

/-- `testMeans` accumulated over the relevant results of one sample. -/
def testMeans (rs : List TestResult) : List ℚ :=
  (rs.filter isRelevantResult).filterMap testMeanOf

/-- The record built for one retained sample before the final type-guard
filter: `value`, `min` and `max` are `null` (`none`) when `testMeans` is
empty. -/
structure NullableEntry where
  date : ℤ
  value : Option ℚ
  min : Option ℚ
  max : Option ℚ
  deriving DecidableEq

/-- `filterDataByStation` (`src/scripts/processData.ts`, weighted revision):
1. normalize `extraction_date` via `d3.timeParse("%d.%m.%Y")`, skipping
   entries whose date does not parse (the skip also logs a console warning,
   an I/O effect outside this embedding);
2. keep entries of the selected station;
3. map each entry to a record carrying mean, min and max of its test-level
   means, `null` when there are none;
4. keep the records whose `value`, `min` and `max` are non-null (`!!d.date`
   also holds: a `Date` object is always truthy). -/
def filterDataByStation (rawData : List RawDataEntry) (station : String) :
    List ProcessedEntry :=
  let parsedData : List (RawDataEntry × ℤ) :=
    rawData.filterMap fun d =>
      match parseDateDMY d.extraction_date with
      | none => none
      | some dt => some (d, dt)
  let mapped : List NullableEntry :=
    (parsedData.filter fun d => d.1.measuring_point == station).map fun d =>
      let tm := testMeans (d.1.results.getD [])
      { date := d.2
        value := if tm.isEmpty then none else some (d3Mean tm)
        min := d3Min tm
        max := d3Max tm }
  mapped.filterMap fun d =>
    match d.value, d.min, d.max with
    | some v, some mn, some mx => some ⟨d.date, v, mn, mx⟩
    | _, _, _ => none

/-- The revision of `filterDataByStation` carrying the `Array.isArray` guard
returns `[]` for a non-array argument before doing anything else; an array is
processed by the pipeline above. -/
def filterDataByStationChecked : RawInput → String → List ProcessedEntry
  | .notAnArray, _ => []
  | .array rawData, station => filterDataByStation rawData station

/-- `getGlobalMaxFromProcessedDatasets`: flatten all values of all datasets,
take `d3.max`, and return `Math.round(max * 1.1)` when `max` is truthy
(defined and non-zero), else `0`. -/
def getGlobalMaxFromProcessedDatasets (datasets : List (List ProcessedEntry)) : ℤ :=
  let allValues := (datasets.map fun data => data.map (·.value)).flatten
  match d3Max allValues with
  | none => 0
  | some m => if m = 0 then 0 else jsRound (m * (11 / 10))

/-- Modelled from the spec: the population-weight table
`data/populationByPlant.json` is loaded once at startup and is not part of
`src/`; §3 specifies it as a fixed read-only mapping from exactly the three
contributing stations to numeric population figures, so the three weights are
the fields of this record, passed explicitly as configuration (§9). -/
structure PopulationData where
  ruhleben : ℚ
  schoenerlinde : ℚ
  wassmannsdorf : ℚ
  deriving DecidableEq

/-- `computeWeightedAverage`: for each non-null station value push
`value * weight` onto `weightedContributions` and add the weight to
`weightSum`; return `null` when `weightSum` is `0`, else
`d3.sum(weightedContributions) / weightSum`. -/
def computeWeightedAverage (pd : PopulationData)
    (ruhleben schoenerlinde wassmannsdorf : Option ℚ) : Option ℚ :=
  let step : Option ℚ → ℚ → List ℚ × ℚ → List ℚ × ℚ := fun v w acc =>
    match v with
    | some x => (acc.1 ++ [x * w], acc.2 + w)
    | none => acc
  let acc1 := step ruhleben pd.ruhleben ([], 0)
  let acc2 := step schoenerlinde pd.schoenerlinde acc1
  let acc3 := step wassmannsdorf pd.wassmannsdorf acc2
  if acc3.2 = 0 then none else some (acc3.1.sum / acc3.2)

/-- The lookup of `computeWeightedSeries`:
`series.find(d => +d.date === +date)?.value ?? null` — the value of the FIRST
point with the exact instant, or `null`. -/
def getValue (series : List ProcessedEntry) (date : ℤ) : Option ℚ :=
  (series.find? fun d => d.date == date).map (·.value)

/-- The date list built by `computeWeightedSeries`: a `Set` of the ISO
renderings of the three series' dates, spread and sorted ascending.
`toISOString` is injective on instants and lexicographic order of the
fixed-width renderings (years 0–9999) is numeric order of the instants, so
the model dedups and sorts the day numbers. -/
def sortedUnionDates (r s w : List ProcessedEntry) : List ℤ :=
  List.insertionSort (· ≤ ·)
    (jsSetOf (r.map (·.date) ++ s.map (·.date) ++ w.map (·.date)))

/-- `computeWeightedSeries`: for each date of the sorted union, look up the
three station values, compute the weighted average, and push a point with
`min == max == value` when it is non-null. -/
def computeWeightedSeries (pd : PopulationData)
    (ruhlebenSeries schoenerlindeSeries wassmannsdorfSeries : List ProcessedEntry) :
    List ProcessedEntry :=
  (sortedUnionDates ruhlebenSeries schoenerlindeSeries wassmannsdorfSeries).filterMap
    fun date =>
      match computeWeightedAverage pd (getValue ruhlebenSeries date)
          (getValue schoenerlindeSeries date) (getValue wassmannsdorfSeries date) with
      | none => none
      | some weighted => some ⟨date, weighted, weighted, weighted⟩

/-! ## Spec-side definitions

These follow the wording of the specification; the theorems below compare
them with the embedded code. -/

/-- Spec §4.4 step 3: the running weight total — the sum of the population
weights of exactly those stations whose value at the date is non-null. -/
def contribWeight (pd : PopulationData) (v1 v2 v3 : Option ℚ) : ℚ :=
  (if v1.isSome then pd.ruhleben else 0) +
    (if v2.isSome then pd.schoenerlinde else 0) +
    (if v3.isSome then pd.wassmannsdorf else 0)

/-- Spec §4.4 step 3: the running sum — `value * populationWeight(station)`
accumulated over exactly those stations whose value is non-null. -/
def contribSum (pd : PopulationData) (v1 v2 v3 : Option ℚ) : ℚ :=
  (match v1 with | some x => x * pd.ruhleben | none => 0) +
    (match v2 with | some x => x * pd.schoenerlinde | none => 0) +
    (match v3 with | some x => x * pd.wassmannsdorf | none => 0)

/-- Spec §4.2 steps 5–6 for one retained sample (paired with its parsed
date): when the list of test-level means is non-empty, one point whose value
is its arithmetic mean and whose `min`/`max` are its extrema; when it is
empty, no point. -/
def samplePoint (d : RawDataEntry × ℤ) : Option ProcessedEntry :=
  match testMeans (d.1.results.getD []) with
  | [] => none
  | v :: vs => some ⟨d.2, d3Mean (v :: vs), vs.foldl min v, vs.foldl max v⟩

/-- Spec §4.2 steps 1–2: the samples whose extraction date parses, paired
with that date, restricted to the target station. -/
def retainedSamples (rawData : List RawDataEntry) (station : String) :
    List (RawDataEntry × ℤ) :=
  (rawData.filterMap fun d =>
      match parseDateDMY d.extraction_date with
      | none => none
      | some dt => some (d, dt)).filter
    fun d => d.1.measuring_point == station

/-- Spec §4.2 step 3 as worded: relevance by name alone — present, contains
the pathogen substring, and does not contain the excluded marker. -/
def isRelevantName (r : TestResult) : Bool :=
  match r.name with
  | some n => jsIncludes n "SARS-CoV-2" && !jsIncludes n "E-gene"
  | none => false

/-- Spec §4.3 as worded: the maximum `value` across all points in all
sequences, multiplied by 1.10 and rounded to the nearest integer; `0` when
the global value set is empty. -/
def specGlobalUpperBound (datasets : List (List ProcessedEntry)) : ℤ :=
  match d3Max ((datasets.map fun data => data.map (·.value)).flatten) with
  | none => 0
  | some m => jsRound (m * (11 / 10))

/-- Removes every point whose exact date already appeared earlier; `seen`
accumulates the dates kept so far. -/
def dedupByDateAux (seen : List ℤ) : List ProcessedEntry → List ProcessedEntry
  | [] => []
  | p :: ps =>
    if p.date ∈ seen then dedupByDateAux seen ps
    else p :: dedupByDateAux (p.date :: seen) ps

/-- Keeps only the FIRST point of each exact date of a series. -/
def dedupByDate (series : List ProcessedEntry) : List ProcessedEntry :=
  dedupByDateAux [] series

/-- Scenario A of §8: one sample at station "X" on 01.02.2022 with a single
SARS-CoV-2 test carrying the comma-decimal replicate values 100,0 and
200,0. -/
def scenarioA : RawDataEntry :=
  { measuring_point := "X"
    extraction_date := "01.02.2022"
    results := some
      [{ name := some "SARS-CoV-2 N1"
         parameter := some
           [{ name := some "copy_number_1", result := .str "100,0" },
            { name := some "copy_number_2", result := .str "200,0" }] }] }

/-- Scenario B of §8: one sample with two relevant tests whose test-level
means are 150 and 250. -/
def scenarioB : RawDataEntry :=
  { measuring_point := "X"
    extraction_date := "01.02.2022"
    results := some
      [{ name := some "SARS-CoV-2 N1"
         parameter := some [{ name := some "copy_number_1", result := .str "150" }] },
       { name := some "SARS-CoV-2 N2"
         parameter := some [{ name := some "copy_number_1", result := .str "250" }] }] }

/-- A sample whose extraction date is not of the `dd.mm.yyyy` shape. -/
def badDateSample : RawDataEntry :=
  { measuring_point := "X"
    extraction_date := "2022-02-01"
    results := (scenarioA).results }

/-! ## Generic list lemmas -/

/-- Projecting a `filterMap` back onto its source keeps exactly the elements
where the step produced something. -/
theorem filterMap_map_proj {α β : Type} (f : α → Option β) (g : β → α)
    (h : ∀ a b, f a = some b → g b = a) :
    ∀ l : List α, (l.filterMap f).map g = l.filter fun a => (f a).isSome := by
  intro l
  induction l with
  | nil => rfl
  | cons a l ih =>
    cases hfa : f a with
    | none => simp [List.filterMap_cons, hfa, List.filter_cons, ih]
    | some b => simp [List.filterMap_cons, hfa, List.filter_cons, ih, h a b hfa]

/-- `filterMap` only depends on the pointwise behaviour of its function. -/
theorem filterMap_ext {α β : Type} (f g : α → Option β)
    (h : ∀ a, f a = g a) : ∀ l : List α, l.filterMap f = l.filterMap g := by
  intro l
  induction l with
  | nil => rfl
  | cons a l ih => simp [List.filterMap_cons, h a, ih]

/-- Pre-filtering by definedness of the step does not change a `filterMap`. -/
theorem filterMap_filter_isSome {α β : Type} (f : α → Option β) (p : α → Bool)
    (h : ∀ a, (f a).isSome = p a) :
    ∀ l : List α, (l.filter p).filterMap f = l.filterMap f := by
  intro l
  induction l with
  | nil => rfl
  | cons a l ih =>
    cases hfa : f a with
    | none =>
      have hp : p a = false := by rw [← h a, hfa]; rfl
      simp [List.filter_cons, hp, List.filterMap_cons, hfa, ih]
    | some b =>
      have hp : p a = true := by rw [← h a, hfa]; rfl
      simp [List.filter_cons, hp, List.filterMap_cons, hfa, ih]

/-- Membership after folding `insertNew` over a list. -/
theorem mem_foldl_insertNew {α : Type} [DecidableEq α] :
    ∀ (l acc : List α) (x : α), x ∈ l.foldl insertNew acc ↔ x ∈ acc ∨ x ∈ l := by
  intro l
  induction l with
  | nil => simp
  | cons a l ih =>
    intro acc x
    rw [List.foldl_cons, ih]
    unfold insertNew
    by_cases hx : a ∈ acc
    · simp only [hx, if_true, List.mem_cons]
      constructor
      · rintro (h | h) <;> tauto
      · rintro (h | h | h)
        · tauto
        · subst h; tauto
        · tauto
    · simp only [hx, if_false, List.mem_append, List.mem_singleton, List.mem_cons]
      tauto

/-- Folding `insertNew` preserves freedom from duplicates. -/
theorem nodup_foldl_insertNew {α : Type} [DecidableEq α] :
    ∀ (l acc : List α), acc.Nodup → (l.foldl insertNew acc).Nodup := by
  intro l
  induction l with
  | nil => intro acc h; exact h
  | cons a l ih =>
    intro acc h
    rw [List.foldl_cons]
    apply ih
    unfold insertNew
    by_cases hx : a ∈ acc
    · simpa [hx] using h
    · simp only [hx, if_false]
      refine h.append (List.nodup_singleton a) ?_
      intro b hb hba
      rw [List.mem_singleton] at hba
      exact hx (hba ▸ hb)

/-- The spread of a JS `Set` holds exactly the elements of its source. -/
theorem mem_jsSetOf {α : Type} [DecidableEq α] (l : List α) (x : α) :
    x ∈ jsSetOf l ↔ x ∈ l := by
  unfold jsSetOf
  rw [mem_foldl_insertNew]
  simp

/-- The spread of a JS `Set` has no duplicates. -/
theorem nodup_jsSetOf {α : Type} [DecidableEq α] (l : List α) : (jsSetOf l).Nodup :=
  nodup_foldl_insertNew l [] List.nodup_nil

/-! ## Weighted composite lemmas -/

/-- The imperative accumulation of `computeWeightedAverage` computes the
spec-side sums: `null` iff the weight total vanishes, else their quotient. -/
theorem computeWeightedAverage_eq (pd : PopulationData) (v1 v2 v3 : Option ℚ) :
    computeWeightedAverage pd v1 v2 v3 =
      if contribWeight pd v1 v2 v3 = 0 then none
      else some (contribSum pd v1 v2 v3 / contribWeight pd v1 v2 v3) := by
  cases v1 <;> cases v2 <;> cases v3 <;>
    simp [computeWeightedAverage, contribWeight, contribSum]
  rw [← add_assoc]

/-- Dates of the union list: sorted ascending. -/
theorem sorted_sortedUnionDates (r s w : List ProcessedEntry) :
    List.Sorted (· ≤ ·) (sortedUnionDates r s w) :=
  List.sorted_insertionSort _ _

/-- Dates of the union list: no duplicates. -/
theorem nodup_sortedUnionDates (r s w : List ProcessedEntry) :
    (sortedUnionDates r s w).Nodup :=
  ((List.perm_insertionSort _ _).nodup_iff).mpr (nodup_jsSetOf _)

/-- Dates of the union list: exactly the dates of the three series. -/
theorem mem_sortedUnionDates (r s w : List ProcessedEntry) (x : ℤ) :
    x ∈ sortedUnionDates r s w ↔
      x ∈ r.map (·.date) ++ s.map (·.date) ++ w.map (·.date) := by
  unfold sortedUnionDates
  rw [(List.perm_insertionSort _ _).mem_iff, mem_jsSetOf]

/-- Dates of the union list: strictly ascending. -/
theorem sortedLt_sortedUnionDates (r s w : List ProcessedEntry) :
    List.Sorted (· < ·) (sortedUnionDates r s w) :=
  ((sorted_sortedUnionDates r s w).and (nodup_sortedUnionDates r s w)).imp
    fun hab => lt_of_le_of_ne hab.1 hab.2

/-- Membership in the composite series, characterized by date lookup and the
weighted average. -/
theorem mem_computeWeightedSeries (pd : PopulationData)
    (r s w : List ProcessedEntry) (p : ProcessedEntry) :
    p ∈ computeWeightedSeries pd r s w ↔
      p.date ∈ sortedUnionDates r s w ∧
      computeWeightedAverage pd (getValue r p.date) (getValue s p.date)
          (getValue w p.date) = some p.value ∧
      p.min = p.value ∧ p.max = p.value := by
  unfold computeWeightedSeries
  rw [List.mem_filterMap]
  constructor
  · rintro ⟨d, hd, hstep⟩
    cases hcwa : computeWeightedAverage pd (getValue r d) (getValue s d) (getValue w d) with
    | none => rw [hcwa] at hstep; exact absurd hstep (by simp)
    | some weighted =>
      rw [hcwa] at hstep
      have hp := Option.some.inj hstep
      subst hp
      exact ⟨hd, hcwa, rfl, rfl⟩
  · rintro ⟨hmem, hcwa, hmin, hmax⟩
    cases p with
    | mk d v mn mx =>
      simp only at hmem hcwa hmin hmax
      subst hmin
      subst hmax
      exact ⟨d, hmem, by rw [hcwa]⟩

/-! ## Per-station aggregator lemmas -/

/-- The map-then-type-guard body of `filterDataByStation` emits, per retained
sample, exactly the spec-side `samplePoint`. -/
theorem filterDataByStation_eq (rawData : List RawDataEntry) (station : String) :
    filterDataByStation rawData station =
      (retainedSamples rawData station).filterMap samplePoint := by
  unfold filterDataByStation retainedSamples
  rw [List.filterMap_map]
  apply filterMap_ext
  intro d
  unfold samplePoint
  cases htm : testMeans (d.1.results.getD []) with
  | nil => simp [Function.comp, htm, d3Min, d3Max]
  | cons v vs => simp [Function.comp, htm, d3Min, d3Max]

/-- The relevance filter of the code is the spec's name-only relevance plus
the `Array.isArray(r.parameter)` check. -/
theorem isRelevantResult_eq (r : TestResult) :
    isRelevantResult r = (isRelevantName r && r.parameter.isSome) := by
  unfold isRelevantResult isRelevantName
  cases r.name with
  | none => rfl
  | some n => simp [Bool.and_assoc]

/-- A result without a parameter array yields no test-level mean. -/
theorem testMeanOf_param_none (r : TestResult) (h : r.parameter = none) :
    testMeanOf r = none := by
  unfold testMeanOf resultValues
  rw [h]
  rfl

/-! ## Claims

Concrete evaluations below go through `decide`; the Batteries rational
operations are restored to their definitional transparency for that. -/

section

attribute [local semireducible] Rat.add Rat.sub Rat.mul Rat.inv Rat.ofScientific

/-- C1: for every date, an emitted composite point's value is the sum of
`value * populationWeight(station)` over exactly the stations whose value at
that date is non-null, divided by the sum of those stations' weights, and the
weight total is non-zero there (so the value is a well-defined rational —
never NaN or Infinity); a date where no station reports, or where the weight
total is zero, produces no output point. -/
theorem claim_C1 (pd : PopulationData) (r s w : List ProcessedEntry) (date : ℤ) :
    (∀ p ∈ computeWeightedSeries pd r s w, p.date = date →
      contribWeight pd (getValue r date) (getValue s date) (getValue w date) ≠ 0 ∧
      p.value = contribSum pd (getValue r date) (getValue s date) (getValue w date) /
        contribWeight pd (getValue r date) (getValue s date) (getValue w date)) ∧
    (((getValue r date = none ∧ getValue s date = none ∧ getValue w date = none) ∨
        contribWeight pd (getValue r date) (getValue s date) (getValue w date) = 0) →
      ∀ p ∈ computeWeightedSeries pd r s w, p.date ≠ date) := by
  constructor
  · intro p hp hdate
    subst hdate
    rw [mem_computeWeightedSeries] at hp
    obtain ⟨-, hcwa, -, -⟩ := hp
    rw [computeWeightedAverage_eq] at hcwa
    by_cases h0 :
      contribWeight pd (getValue r p.date) (getValue s p.date) (getValue w p.date) = 0
    · rw [if_pos h0] at hcwa
      exact absurd hcwa (by simp)
    · rw [if_neg h0] at hcwa
      exact ⟨h0, (Option.some.inj hcwa).symm⟩
  · intro hnone p hp hdate
    subst hdate
    rw [mem_computeWeightedSeries] at hp
    obtain ⟨-, hcwa, -, -⟩ := hp
    rw [computeWeightedAverage_eq] at hcwa
    have h0 :
        contribWeight pd (getValue r p.date) (getValue s p.date) (getValue w p.date) = 0 := by
      rcases hnone with ⟨h1, h2, h3⟩ | h0
      · simp [contribWeight, h1, h2, h3]
      · exact h0
    rw [if_pos h0] at hcwa
    exact absurd hcwa (by simp)

/-- Witness for C1: a concrete composite date where only the first station
reports value 7 under weight 2, so the output value is `(7*2)/2`. -/
theorem claim_C1_witness :
    (⟨5, 7, 7, 7⟩ : ProcessedEntry) ∈
        computeWeightedSeries ⟨2, 3, 11⟩ [⟨5, 7, 7, 7⟩] [] [] ∧
      ((5 : ℤ) = 5) ∧
      (contribWeight ⟨2, 3, 11⟩ (getValue [⟨5, 7, 7, 7⟩] 5) (getValue [] 5)
          (getValue [] 5) ≠ 0 ∧
        (7 : ℚ) = contribSum ⟨2, 3, 11⟩ (getValue [⟨5, 7, 7, 7⟩] 5) (getValue [] 5)
            (getValue [] 5) /
          contribWeight ⟨2, 3, 11⟩ (getValue [⟨5, 7, 7, 7⟩] 5) (getValue [] 5)
            (getValue [] 5)) :=
  ⟨by decide, rfl,
    (claim_C1 ⟨2, 3, 11⟩ [⟨5, 7, 7, 7⟩] [] [] 5).1 ⟨5, 7, 7, 7⟩ (by decide) rfl⟩


/-- C2: per retained sample, the aggregator emits exactly one point whose
value is the arithmetic mean and whose min/max are the extrema of the
sample's non-empty list of test-level means, and no point when that list is
empty; Scenario B: test-level means 150 and 250 give value 200, min 150,
max 250. -/
theorem claim_C2 :
    (∀ (rawData : List RawDataEntry) (station : String),
      filterDataByStation rawData station =
        (retainedSamples rawData station).filterMap samplePoint) ∧
    filterDataByStation [scenarioB] "X" =
      [⟨daysFromCivil 2022 2 1, 200, 150, 250⟩] :=
  ⟨fun rawData station => filterDataByStation_eq rawData station, by decide⟩

/-- C4: the global upper bound equals the spec-side formula — the maximum
value over all points of all sequences times 1.10 rounded to the nearest
integer, and 0 when there is no point at all (in particular on the empty
collection of sequences). -/
theorem claim_C4 :
    (∀ datasets : List (List ProcessedEntry),
      getGlobalMaxFromProcessedDatasets datasets = specGlobalUpperBound datasets) ∧
    getGlobalMaxFromProcessedDatasets [] = 0 := by
  constructor
  · intro datasets
    unfold getGlobalMaxFromProcessedDatasets specGlobalUpperBound
    cases hm : d3Max ((datasets.map fun data => data.map (·.value)).flatten) with
    | none => simp only [hm]
    | some m =>
      by_cases h0 : m = 0
      · subst h0
        simp only [hm]
        decide
      · simp only [hm, if_neg h0]
  · rfl

/-- C5: a test result contributes to the aggregated test-level means exactly
through the name-based relevance condition (name present, contains
"SARS-CoV-2", does not contain "E-gene"); results failing it contribute
nothing, and the additional `Array.isArray(r.parameter)` check in the code
is observationally redundant (a result without a parameter array produces no
test-level mean anyway). -/
theorem claim_C5 :
    ∀ rs : List TestResult,
      testMeans rs = (rs.filter isRelevantName).filterMap testMeanOf := by
  intro rs
  unfold testMeans
  induction rs with
  | nil => rfl
  | cons r rs ih =>
    rw [List.filter_cons, List.filter_cons]
    cases hn : isRelevantName r with
    | false =>
      have hr : isRelevantResult r = false := by
        rw [isRelevantResult_eq, hn]; rfl
      simp only [hr, hn, Bool.false_eq_true, if_false, ih]
    | true =>
      cases hp : r.parameter with
      | some ps =>
        have hr : isRelevantResult r = true := by
          rw [isRelevantResult_eq, hn, hp]; rfl
        simp only [hr, hn, if_true, List.filterMap_cons, ih]
      | none =>
        have hr : isRelevantResult r = false := by
          rw [isRelevantResult_eq, hn, hp]; rfl
        have hm := testMeanOf_param_none r hp
        simp only [hr, hn, Bool.false_eq_true, if_false, if_true,
          List.filterMap_cons, hm, ih]

/-- C6: Scenario A — the single sample at station "X", date 01.02.2022, one
SARS-CoV-2 test with comma-decimal replicate values 100,0 and 200,0, yields
exactly one point with date 2022-02-01 and value = min = max = 150. -/
theorem claim_C6 :
    filterDataByStation [scenarioA] "X" =
      [⟨daysFromCivil 2022 2 1, 150, 150, 150⟩] ∧
    parseDateDMY "01.02.2022" = some (daysFromCivil 2022 2 1) := by
  decide

/-- C9: on a non-array argument, station listing and station aggregation
return an empty result (total Lean functions: no exception is raised). -/
theorem claim_C9 :
    getStations .notAnArray = [] ∧
    ∀ station : String, filterDataByStationChecked .notAnArray station = [] :=
  ⟨rfl, fun _ => rfl⟩


/-- The dates of the composite output are the union dates where the weighted
average is defined. -/
theorem map_date_computeWeightedSeries (pd : PopulationData)
    (r s w : List ProcessedEntry) :
    (computeWeightedSeries pd r s w).map (·.date) =
      (sortedUnionDates r s w).filter fun date =>
        (computeWeightedAverage pd (getValue r date) (getValue s date)
            (getValue w date)).isSome := by
  unfold computeWeightedSeries
  generalize sortedUnionDates r s w = l
  induction l with
  | nil => rfl
  | cons a l ih =>
    rw [List.filterMap_cons, List.filter_cons]
    cases hcwa : computeWeightedAverage pd (getValue r a) (getValue s a) (getValue w a) with
    | none => simpa [hcwa] using ih
    | some u => simp [hcwa, ih]

/-- C3: the composite emits exactly one point per union date whose weighted
average is defined, in strictly ascending date order, and every emitted
point has `min == max == value`. -/
theorem claim_C3 (pd : PopulationData) (r s w : List ProcessedEntry) :
    (computeWeightedSeries pd r s w).map (·.date) =
      ((sortedUnionDates r s w).filter fun date =>
        (computeWeightedAverage pd (getValue r date) (getValue s date)
            (getValue w date)).isSome) ∧
    List.Sorted (· < ·) ((computeWeightedSeries pd r s w).map (·.date)) ∧
    ∀ p ∈ computeWeightedSeries pd r s w, p.min = p.value ∧ p.max = p.value := by
  refine ⟨map_date_computeWeightedSeries pd r s w, ?_, ?_⟩
  · rw [map_date_computeWeightedSeries]
    exact List.Pairwise.filter _ (sortedLt_sortedUnionDates r s w)
  · intro p hp
    rw [mem_computeWeightedSeries] at hp
    exact ⟨hp.2.2.1, hp.2.2.2⟩

/-- Witness for C3 at a concrete composite. -/
theorem claim_C3_witness :
    (⟨3, 7, 7, 7⟩ : ProcessedEntry) ∈
        computeWeightedSeries ⟨2, 3, 11⟩ [⟨3, 7, 7, 7⟩] [] [] ∧
      ((7 : ℚ) = 7 ∧ (7 : ℚ) = 7) :=
  ⟨by decide,
    (claim_C3 ⟨2, 3, 11⟩ [⟨3, 7, 7, 7⟩] [] []).2.2 ⟨3, 7, 7, 7⟩ (by decide)⟩


/-- `find?` by date ignores points whose date was already seen, so
deduplication by first date does not change it. -/
theorem find?_dedupByDateAux (x : ℤ) :
    ∀ (l : List ProcessedEntry) (seen : List ℤ), x ∉ seen →
      (dedupByDateAux seen l).find? (fun d => d.date == x) =
        l.find? (fun d => d.date == x) := by
  intro l
  induction l with
  | nil => intro seen _; rfl
  | cons p ps ih =>
    intro seen hx
    unfold dedupByDateAux
    by_cases hd : p.date ∈ seen
    · have hne : (p.date == x) = false := by
        rw [beq_eq_false_iff_ne]
        intro he
        exact hx (he ▸ hd)
      rw [if_pos hd, ih seen hx,
        @List.find?_cons_of_neg _ (fun d => d.date == x) p ps (by simp [hne])]
    · rw [if_neg hd]
      cases hpx : (p.date == x) with
      | true =>
        rw [@List.find?_cons_of_pos _ (fun d => d.date == x) p
            (dedupByDateAux (p.date :: seen) ps) hpx,
          @List.find?_cons_of_pos _ (fun d => d.date == x) p ps hpx]
      | false =>
        rw [@List.find?_cons_of_neg _ (fun d => d.date == x) p
            (dedupByDateAux (p.date :: seen) ps) (by simp [hpx]),
          @List.find?_cons_of_neg _ (fun d => d.date == x) p ps (by simp [hpx])]
        apply ih
        intro hmem
        rcases List.mem_cons.mp hmem with he | hseen
        · rw [beq_eq_false_iff_ne] at hpx
          exact hpx he.symm
        · exact hx hseen

/-- Deduplication by first date keeps exactly the dates not already seen. -/
theorem mem_dates_dedupByDateAux (x : ℤ) :
    ∀ (l : List ProcessedEntry) (seen : List ℤ),
      x ∈ (dedupByDateAux seen l).map (·.date) ↔
        x ∈ l.map (·.date) ∧ x ∉ seen := by
  intro l
  induction l with
  | nil => intro seen; simp [dedupByDateAux]
  | cons p ps ih =>
    intro seen
    unfold dedupByDateAux
    by_cases hd : p.date ∈ seen
    · rw [if_pos hd, ih]
      simp only [List.map_cons, List.mem_cons]
      constructor
      · rintro ⟨hm, hs⟩
        exact ⟨Or.inr hm, hs⟩
      · rintro ⟨hm | hm, hs⟩
        · exact absurd (hm ▸ hd) hs
        · exact ⟨hm, hs⟩
    · rw [if_neg hd]
      simp only [List.map_cons, List.mem_cons, ih, List.mem_cons, not_or]
      constructor
      · rintro (he | ⟨hm, hne, hs⟩)
        · exact ⟨Or.inl he, he ▸ hd⟩
        · exact ⟨Or.inr hm, hs⟩
      · rintro ⟨he | hm, hs⟩
        · exact Or.inl he
        · by_cases hex : x = p.date
          · exact Or.inl hex
          · exact Or.inr ⟨hm, hex, hs⟩

/-- The composite date lookup sees only the first point per date. -/
theorem getValue_dedupByDate (series : List ProcessedEntry) (x : ℤ) :
    getValue (dedupByDate series) x = getValue series x := by
  unfold getValue dedupByDate
  rw [find?_dedupByDateAux x series [] (by simp)]

/-- Deduplication by first date keeps the set of dates. -/
theorem mem_dates_dedupByDate (series : List ProcessedEntry) (x : ℤ) :
    x ∈ (dedupByDate series).map (·.date) ↔ x ∈ series.map (·.date) := by
  unfold dedupByDate
  rw [mem_dates_dedupByDateAux]
  simp

/-- The sorted union of dates is unchanged by per-series deduplication. -/
theorem sortedUnionDates_dedup (r s w : List ProcessedEntry) :
    sortedUnionDates (dedupByDate r) (dedupByDate s) (dedupByDate w) =
      sortedUnionDates r s w := by
  apply List.eq_of_perm_of_sorted (r := (· ≤ ·))
  · rw [List.perm_ext_iff_of_nodup (nodup_sortedUnionDates _ _ _)
      (nodup_sortedUnionDates _ _ _)]
    intro a
    rw [mem_sortedUnionDates, mem_sortedUnionDates]
    simp only [List.mem_append, mem_dates_dedupByDate]
  · exact sorted_sortedUnionDates _ _ _
  · exact sorted_sortedUnionDates _ _ _

/-- C10: when a station series carries several points with the same exact
date, only the first one contributes — the composite is unchanged by
dropping all but the first point per date — and the composite emits at most
one point per distinct date. -/
theorem claim_C10 (pd : PopulationData) (r s w : List ProcessedEntry) :
    computeWeightedSeries pd r s w =
      computeWeightedSeries pd (dedupByDate r) (dedupByDate s) (dedupByDate w) ∧
    ((computeWeightedSeries pd r s w).map (·.date)).Nodup := by
  constructor
  · unfold computeWeightedSeries
    rw [sortedUnionDates_dedup]
    apply filterMap_ext
    intro date
    rw [getValue_dedupByDate, getValue_dedupByDate, getValue_dedupByDate]
  · rw [map_date_computeWeightedSeries]
    exact List.Nodup.filter _ (nodup_sortedUnionDates r s w)


/-- An emitted sample point carries the sample's parsed date. -/
theorem samplePoint_date {a : RawDataEntry × ℤ} {p : ProcessedEntry}
    (h : samplePoint a = some p) : p.date = a.2 := by
  unfold samplePoint at h
  cases htm : testMeans (a.1.results.getD []) with
  | nil =>
    rw [htm] at h
    exact absurd h (by simp)
  | cons v vs =>
    rw [htm] at h
    rw [← Option.some.inj h]

/-- The dates emitted over a list of retained samples are the parsed dates of
those samples whose point is defined. -/
theorem dates_filterMap_samplePoint :
    ∀ l : List (RawDataEntry × ℤ),
      (l.filterMap samplePoint).map (·.date) =
        (l.filter fun a => (samplePoint a).isSome).map (·.2) := by
  intro l
  induction l with
  | nil => rfl
  | cons a l ih =>
    rw [List.filterMap_cons, List.filter_cons]
    cases hsp : samplePoint a with
    | none => simpa [hsp] using ih
    | some p => simp [hsp, ih, samplePoint_date hsp]

/-- Counting points by date is counting among the emitted dates. -/
theorem countP_date_eq_count (dt : ℤ) :
    ∀ X : List ProcessedEntry,
      X.countP (fun p => p.date == dt) = (X.map (·.date)).count dt := by
  intro X
  induction X with
  | nil => rfl
  | cons p ps ih =>
    by_cases h : p.date = dt <;>
      simp [List.countP_cons, List.count_cons, h, ih]

/-- C7: under the data-model invariant of §3 (one record per extraction per
station: the parsed dates of the retained samples are pairwise distinct),
every raw sample of the target station whose date parses and which has at
least one test-level mean yields exactly one aggregated point carrying its
parsed date. -/
theorem claim_C7 (rawData : List RawDataEntry) (station : String)
    (s : RawDataEntry) (dt : ℤ)
    (hnodup : (((retainedSamples rawData station).map (·.2)).Nodup))
    (hs : s ∈ rawData) (hstation : s.measuring_point = station)
    (hparse : parseDateDMY s.extraction_date = some dt)
    (hvalues : testMeans (s.results.getD []) ≠ []) :
    (filterDataByStation rawData station).countP (fun p => p.date == dt) = 1 := by
  rw [filterDataByStation_eq, countP_date_eq_count, dates_filterMap_samplePoint]
  have hmemRet : (s, dt) ∈ retainedSamples rawData station := by
    unfold retainedSamples
    rw [List.mem_filter]
    constructor
    · rw [List.mem_filterMap]
      exact ⟨s, hs, by rw [hparse]⟩
    · simp [hstation]
  have hsome : (samplePoint (s, dt)).isSome = true := by
    unfold samplePoint
    cases htm : testMeans ((s, dt).1.results.getD []) with
    | nil => exact absurd htm hvalues
    | cons v vs => rfl
  apply List.count_eq_one_of_mem
  · exact List.Nodup.sublist
      (List.Sublist.map _ (List.filter_sublist (retainedSamples rawData station)))
      hnodup
  · rw [List.mem_map]
    exact ⟨(s, dt), List.mem_filter.mpr ⟨hmemRet, hsome⟩, rfl⟩

/-- Witness for C7 at Scenario A's dataset. -/
theorem claim_C7_witness :
    (((retainedSamples [scenarioA] "X").map (·.2)).Nodup ∧
        scenarioA ∈ [scenarioA] ∧ scenarioA.measuring_point = "X" ∧
        parseDateDMY scenarioA.extraction_date = some 19024 ∧
        testMeans (scenarioA.results.getD []) ≠ []) ∧
      (filterDataByStation [scenarioA] "X").countP (fun p => p.date == 19024) = 1 :=
  ⟨⟨by decide, by decide, by decide, by decide, by decide⟩,
    claim_C7 [scenarioA] "X" scenarioA 19024 (by decide) (by decide) (by decide)
      (by decide) (by decide)⟩

/-- C8: samples whose extraction date fails to parse contribute nothing (the
aggregation equals the aggregation of the parsable samples alone — the
parse-failure branch only logs a diagnostic and skips, it cannot throw), and
every emitted point stems from a sample of the station whose date parsed
successfully to the point's date. -/
theorem claim_C8 (rawData : List RawDataEntry) (station : String) :
    filterDataByStation rawData station =
      filterDataByStation
        (rawData.filter fun d => (parseDateDMY d.extraction_date).isSome) station ∧
    ∀ p ∈ filterDataByStation rawData station, ∃ d ∈ rawData,
      d.measuring_point = station ∧ parseDateDMY d.extraction_date = some p.date := by
  have hparsed : (rawData.filter fun d => (parseDateDMY d.extraction_date).isSome).filterMap
        (fun d => match parseDateDMY d.extraction_date with
          | none => none
          | some dt => some (d, dt)) =
      rawData.filterMap
        (fun d => match parseDateDMY d.extraction_date with
          | none => none
          | some dt => some (d, dt)) := by
    apply filterMap_filter_isSome
    intro d
    cases h : parseDateDMY d.extraction_date <;> simp [h]
  constructor
  · rw [filterDataByStation_eq, filterDataByStation_eq]
    unfold retainedSamples
    rw [hparsed]
  · intro p hp
    rw [filterDataByStation_eq, List.mem_filterMap] at hp
    obtain ⟨a, ha, hsp⟩ := hp
    unfold retainedSamples at ha
    rw [List.mem_filter] at ha
    obtain ⟨hmem, hstation⟩ := ha
    rw [List.mem_filterMap] at hmem
    obtain ⟨d, hd, hmatch⟩ := hmem
    cases hpd : parseDateDMY d.extraction_date with
    | none =>
      rw [hpd] at hmatch
      exact absurd hmatch (by simp)
    | some dt =>
      rw [hpd] at hmatch
      have ha2 : a = (d, dt) := (Option.some.inj hmatch).symm
      subst ha2
      refine ⟨d, hd, ?_, ?_⟩
      · simpa using hstation
      · rw [samplePoint_date hsp, hpd]

/-- Witness for C8: a dataset containing one malformed-date sample. -/
theorem claim_C8_witness :
    (filterDataByStation [scenarioA, badDateSample] "X" =
        filterDataByStation
          ([scenarioA, badDateSample].filter fun d =>
            (parseDateDMY d.extraction_date).isSome) "X") ∧
      ((⟨19024, 150, 150, 150⟩ : ProcessedEntry) ∈
          filterDataByStation [scenarioA, badDateSample] "X" ∧
        ∃ d ∈ [scenarioA, badDateSample], d.measuring_point = "X" ∧
          parseDateDMY d.extraction_date =
            some (⟨19024, 150, 150, 150⟩ : ProcessedEntry).date) :=
  ⟨(claim_C8 [scenarioA, badDateSample] "X").1,
    by decide,
    (claim_C8 [scenarioA, badDateSample] "X").2 ⟨19024, 150, 150, 150⟩ (by decide)⟩

end
